import Mathlib

/-!
Verification development for the elo pipeline core.

The repository has two implementations of the same production-pipeline
hierarchy: a schema-driven branch model (`src/unnamed/part_001`, the spec's
target) and a hard-coded category model (`src/unnamed/part_000`).  This file
gives a shallow embedding of both, faithful to the TypeScript source:

* JavaScript strings are modelled as `Str := List Char` (all names in play
  are BMP text, where UTF-16 code-unit order agrees with code-point order);
* the filesystem is an explicit value threaded through the directory
  operations; fallible code returns `Except Str _`;
* `Array.prototype.sort` (a stable sort by the supplied comparator) is
  modelled by a stable insertion sort by the same comparator;
* external process invocations are reified as records of the command, its
  argument list and the environment passed to it.
-/

namespace Elo

/-- JS strings, modelled as lists of characters. -/
abbrev Str := List Char

/-- Model of `s.endsWith(suffix)`. -/
def jsEndsWith (s suffix : Str) : Bool := suffix.isSuffixOf s

/-- Model of `s.startsWith(p)`. -/
def jsStartsWith (s p : Str) : Bool := p.isPrefixOf s

/-- Model of `s.split(sep)` for a one-character separator: JS splits at every
occurrence, so `"a__b"` gives `["a","","b"]` and `""` gives `[""]`. -/
def splitChar (sep : Char) : Str → List Str
  | [] => [[]]
  | a :: rest =>
    if a = sep then [] :: splitChar sep rest
    else
      match splitChar sep rest with
      | [] => [[a]]
      | t :: ts => (a :: t) :: ts

/-- Model of `parts.join(sep)` for a one-character separator. -/
def joinChar (sep : Char) : List Str → Str
  | [] => []
  | [x] => x
  | x :: xs => x ++ sep :: joinChar sep xs

/-- JS string comparison (`<` / `>` on strings): lexicographic in code
units, shorter prefix first. -/
def lexLe : Str → Str → Bool
  | [], _ => true
  | _ :: _, [] => false
  | a :: as, b :: bs => if a < b then true else if b < a then false else lexLe as bs

/-- Insert into a le-sorted list, keeping it sorted (stable). -/
def orderedInsert (le : α → α → Bool) (a : α) : List α → List α
  | [] => [a]
  | b :: l => if le a b then a :: b :: l else b :: orderedInsert le a l

/-- Model of `Array.prototype.sort(comparator)`: a stable sort by `le`. -/
def sortBy (le : α → α → Bool) : List α → List α
  | [] => []
  | a :: l => orderedInsert le a (sortBy le l)

/-- The whitespace characters `parseInt` skips over before reading digits. -/
def isSpaceChar (c : Char) : Bool :=
  c = ' ' || c = '\t' || c = '\n' || c = '\r'

/-- Numeric value of a (nonempty) run of decimal digits. -/
def digitsVal (ds : Str) : Nat :=
  ds.foldl (fun acc c => 10 * acc + (c.toNat - ('0').toNat)) 0

/-- JS `parseInt(s, 10)`: skip leading whitespace, optional sign, then the
longest prefix of decimal digits; `none` models `NaN` (no digits at all).
Trailing garbage after the digits is ignored, exactly as in JS. -/
def jsParseInt (s : Str) : Option Int :=
  let s := s.dropWhile isSpaceChar
  let signed : Int × Str :=
    match s with
    | '-' :: rest => (-1, rest)
    | '+' :: rest => (1, rest)
    | _ => (1, s)
  let ds := signed.2.takeWhile Char.isDigit
  if ds.isEmpty then none else some (signed.1 * (digitsVal ds : Int))

/-- JS truthiness of a `parseInt` result: `NaN` and `0` are falsy. -/
def jsTruthyNum : Option Int → Bool
  | none => false
  | some n => n != 0

/-- JS string coercion of a possibly-`undefined` string value: concatenating
`undefined` into a string produces the literal text `"undefined"`. -/
def jsStr : Option Str → Str
  | none => ("undefined").data
  | some s => s

/-- JS falsiness of a possibly-`undefined` string (`!ver`): `undefined` and
the empty string are falsy. -/
def jsFalsyStr : Option Str → Bool
  | none => true
  | some s => s.isEmpty

/-- Model of `path.join(a, b)` for the ordinary absolute-prefix/relative-suffix case. -/
def pathJoin (a b : Str) : Str := a ++ '/' :: b

/-- Directory part of an absolute path: everything before the last slash. -/
def parentDir (p : Str) : Str :=
  ((p.reverse.dropWhile (fun c => c ≠ '/')).drop 1).reverse

/-! ## Schema model (validated form), from `part_001` -/

/-- Source interface `Dir`: a declared subdirectory with its permission. -/
structure Dir where
  Name : Str
  Perm : Str
deriving DecidableEq, Repr

/-- Source interface `BranchInfo`. -/
structure BranchInfo where
  Label : Str
  Subdirs : List Dir
  ChildRoot : Str
deriving DecidableEq, Repr

/-- Source interface `PartInfo`; `ProgramDir` maps program name to the
relative directory holding that program's scene files. -/
structure PartInfo where
  Label : Str
  Subdirs : List Dir
  ProgramDir : List (Str × Str)
deriving DecidableEq, Repr

/-- Source interface `Program`.  `CreateCmd` / `OpenCmd` are indexed by
`process.platform` in the code, so they are per-OS maps here. -/
structure Program where
  Name : Str
  Ext : Str
  CreateCmd : List (Str × Str)
  OpenCmd : List (Str × Str)
deriving DecidableEq, Repr, Inhabited

/-- One entry of `siteInfo.categories`: group/unit branch specs plus the
per-part definitions. -/
structure CtgInfo where
  group : BranchInfo
  unit : BranchInfo
  part : List (Str × PartInfo)
deriving DecidableEq, Repr

/-- Source interface `SiteInfo` (attributes `show`, `category`,
`categories`, `programs`; `show`/`category` are renamed `showInfo` /
`categoryInfo` because `show` is a Lean keyword). -/
structure SiteInfo where
  showInfo : BranchInfo
  categoryInfo : BranchInfo
  categories : List (Str × CtgInfo)
  programs : List (Str × Program)
deriving DecidableEq, Repr

/-- The process-wide globals set by `Init`: `siteRoot`, `showRoot`, the
loaded `siteInfo`, and `process.platform`. -/
structure Config where
  siteRoot : Str
  showRoot : Str
  siteInfo : SiteInfo
  platform : Str
deriving DecidableEq, Repr

/-! ## Filesystem model -/

/-- Filesystem state: existing directories (with their chmod-ed permission
string; a freshly created directory carries the mkdir default until the
following chmod) and existing regular files. -/
structure FS where
  dirs : List (Str × Str)
  files : List Str
deriving DecidableEq, Repr

/-- Model of `fs.existsSync(p)`: true when a directory or a regular file sits at `p`. -/
def existsSync (fs : FS) (p : Str) : Bool :=
  (fs.dirs.lookup p).isSome || fs.files.contains p

/-- Model of `fs.mkdirSync(d)` (non-recursive): `EEXIST` when something already sits
at `d`, `ENOENT` when the parent directory is missing. -/
def jsMkdirSync (fs : FS) (d : Str) : Except Str FS :=
  if existsSync fs d then
    .error (("EEXIST: file already exists, mkdir ").data ++ d)
  else if ((fs.dirs.lookup (parentDir d)).isSome : Bool) = false then
    .error (("ENOENT: no such file or directory, mkdir ").data ++ d)
  else
    .ok { fs with dirs := (d, ("777").data) :: fs.dirs }

/-- Model of `fs.chmodSync(d, perm)`. -/
def jsChmodSync (fs : FS) (d perm : Str) : Except Str FS :=
  if (fs.dirs.lookup d).isSome then
    .ok { fs with dirs := fs.dirs.map (fun e => if e.1 = d then (d, perm) else e) }
  else
    .error (("ENOENT: no such file or directory, chmod ").data ++ d)

/-- Source `makeDir`: mkdir then chmod.  On win32 the code additionally
shells out to `icacls` for 775/777 permissions; an external process has no
effect on the directory model, so that branch adds nothing here. -/
def makeDir (fs : FS) (d perm : Str) : Except Str FS := do
  let fs ← jsMkdirSync fs d
  let fs ← jsChmodSync fs d perm
  .ok fs

/-- Creates each declared subdirectory under `base`, in declaration order,
stopping at the first failure (no rollback) — the loop body shared by
`CreateShow` / `CreateGroup` / `CreateUnit` / `CreatePart`. -/
def makeSubdirs (fs : FS) (base : Str) : List Dir → Except Str FS
  | [] => .ok fs
  | d :: rest => do
    let fs' ← makeDir fs (pathJoin base d.Name) d.Perm
    makeSubdirs fs' base rest

/-! ## Branch model, from `part_001` -/

/-- Model of `ShowBranch`: constructed from the schema's `show` spec. -/
structure ShowBranch where
  Name : Str
  Dir : Str
  Subdirs : List Elo.Dir
  ChildRoot : Str
deriving DecidableEq, Repr, Inhabited

/-- The `ShowBranch` constructor. -/
def mkShowBranch (cfg : Config) (name : Str) : ShowBranch :=
  let dir := pathJoin cfg.showRoot name
  { Name := name
  , Dir := dir
  , Subdirs := cfg.siteInfo.showInfo.Subdirs
  , ChildRoot := pathJoin dir cfg.siteInfo.showInfo.ChildRoot }

/-- Model of `CreateShow(name)`: constructs the branch, then runs `makeDir` on each
declared subdirectory.  Note: the show's own directory is never created and
its existence is never checked. -/
def CreateShow (cfg : Config) (fs : FS) (name : Str) : Except Str FS :=
  let sb := mkShowBranch cfg name
  makeSubdirs fs sb.Dir sb.Subdirs

/-- Model of `Show(name)`: constructs the branch and errors when its directory does
not exist. -/
def Show (cfg : Config) (fs : FS) (name : Str) : Except Str ShowBranch :=
  let sb := mkShowBranch cfg name
  if existsSync fs sb.Dir then .ok sb
  else .error (("show not exists: ").data ++ name)

/-- Model of `ValidCategories()`: the category names of the schema, name-sorted. -/
def ValidCategories (cfg : Config) : List Str :=
  sortBy lexLe (cfg.siteInfo.categories.map (fun e => e.1))

/-- Model of `CategoryBranch`, with its parent chain. -/
structure CategoryBranch where
  parent : ShowBranch
  Name : Str
  Dir : Str
  Subdirs : List Elo.Dir
  ChildRoot : Str
deriving DecidableEq, Repr, Inhabited

/-- The `CategoryBranch` constructor: rejects category names not declared in
the schema; performs no filesystem access. -/
def mkCategoryBranch (cfg : Config) (p : ShowBranch) (name : Str) :
    Except Str CategoryBranch :=
  if ((ValidCategories cfg).contains name : Bool) = false then
    .error (("invalid category name: ").data ++ name)
  else
    let dir := pathJoin p.ChildRoot name
    .ok { parent := p
        , Name := name
        , Dir := dir
        , Subdirs := cfg.siteInfo.categoryInfo.Subdirs
        , ChildRoot := pathJoin dir cfg.siteInfo.categoryInfo.ChildRoot }

/-- Model of `ShowBranch.Category(name)`: returns the constructed branch with no
existence check (source: `return new CategoryBranch(this, name)`). -/
def Category (cfg : Config) (s : ShowBranch) (name : Str) :
    Except Str CategoryBranch :=
  mkCategoryBranch cfg s name

/-- Model of `GroupBranch`, with its parent chain. -/
structure GroupBranch where
  parent : CategoryBranch
  Name : Str
  Dir : Str
  Subdirs : List Elo.Dir
  ChildRoot : Str
deriving DecidableEq, Repr, Inhabited

/-- The `GroupBranch` constructor: `getParent(this, "category").Name` is the
parent's name; the schema entry for that category supplies the spec. -/
def mkGroupBranch (cfg : Config) (p : CategoryBranch) (name : Str) :
    Except Str GroupBranch :=
  let dir := pathJoin p.ChildRoot name
  match cfg.siteInfo.categories.lookup p.Name with
  | none => .error (("unknown category: ").data ++ p.Name)
  | some ci =>
    .ok { parent := p
        , Name := name
        , Dir := dir
        , Subdirs := ci.group.Subdirs
        , ChildRoot := pathJoin dir ci.group.ChildRoot }

/-- Model of `CategoryBranch.Group(name)`: constructs the branch and errors when its
directory does not exist. -/
def Group (cfg : Config) (fs : FS) (c : CategoryBranch) (name : Str) :
    Except Str GroupBranch := do
  let g ← mkGroupBranch cfg c name
  if existsSync fs g.Dir then .ok g
  else .error (("no group: ").data ++ name)

/-- Model of `CategoryBranch.CreateGroup(name)`. -/
def CreateGroup (cfg : Config) (fs : FS) (c : CategoryBranch) (name : Str) :
    Except Str FS := do
  let g ← mkGroupBranch cfg c name
  makeSubdirs fs g.Dir g.Subdirs

/-- Model of `UnitBranch`, with its parent chain. -/
structure UnitBranch where
  parent : GroupBranch
  Name : Str
  Dir : Str
  Subdirs : List Elo.Dir
  ChildRoot : Str
deriving DecidableEq, Repr, Inhabited

/-- The `UnitBranch` constructor. -/
def mkUnitBranch (cfg : Config) (p : GroupBranch) (name : Str) :
    Except Str UnitBranch :=
  let dir := pathJoin p.ChildRoot name
  match cfg.siteInfo.categories.lookup p.parent.Name with
  | none => .error (("unknown category: ").data ++ p.parent.Name)
  | some ci =>
    .ok { parent := p
        , Name := name
        , Dir := dir
        , Subdirs := ci.unit.Subdirs
        , ChildRoot := pathJoin dir ci.unit.ChildRoot }

/-- Model of `GroupBranch.Unit(name)`: constructs the branch and errors when its
directory does not exist.  (Named with a trailing mark because `Unit` is a
Lean type.) -/
def Unit' (cfg : Config) (fs : FS) (g : GroupBranch) (name : Str) :
    Except Str UnitBranch := do
  let u ← mkUnitBranch cfg g name
  if existsSync fs u.Dir then .ok u
  else .error (("no unit: ").data ++ name)

/-- Model of `PartBranch`, with its parent chain; `ChildRoot` is the part directory
itself. -/
structure PartBranch where
  parent : UnitBranch
  Name : Str
  Dir : Str
  Subdirs : List Elo.Dir
  ChildRoot : Str
  ProgramDir : List (Str × Str)
deriving DecidableEq, Repr, Inhabited

/-- The `PartBranch` constructor: rejects parts not declared for the
category; performs no filesystem access. -/
def mkPartBranch (cfg : Config) (p : UnitBranch) (name : Str) :
    Except Str PartBranch :=
  let dir := pathJoin p.ChildRoot name
  match cfg.siteInfo.categories.lookup p.parent.parent.Name with
  | none => .error (("unknown category: ").data ++ p.parent.parent.Name)
  | some ci =>
    match ci.part.lookup name with
    | none =>
      .error ((("unknown part for ").data ++ p.parent.parent.Name) ++
        ((" category: ").data ++ name))
    | some pi =>
      .ok { parent := p
          , Name := name
          , Dir := dir
          , Subdirs := pi.Subdirs
          , ChildRoot := dir
          , ProgramDir := pi.ProgramDir }

/-- Model of `UnitBranch.Part(name)`: returns the constructed branch with no
existence check (source: `return new PartBranch(this, name)`). -/
def Part (cfg : Config) (u : UnitBranch) (name : Str) : Except Str PartBranch :=
  mkPartBranch cfg u name

/-- Model of `PartBranch.ProgramAt(prog)`: the program's relative scene directory. -/
def ProgramAt (pb : PartBranch) (prog : Str) : Except Str Str :=
  match pb.ProgramDir.lookup prog with
  | none =>
    .error ((("program '").data ++ prog) ++ ((("' not defined in ").data) ++ pb.Name))
  | some d => .ok d

/-- Model of `TaskBranch`: task name, owning program, scene directory and the
discovered versions. -/
structure TaskBranch where
  parent : PartBranch
  Name : Str
  Program : Elo.Program
  Dir : Str
  Versions : List Str
deriving DecidableEq, Repr, Inhabited

/-! ## Scene naming and discovery -/

/-- The literal prefix `show_group_unit_part_` used both to encode scene
names and to filter files during discovery. -/
def scanPre (showN grpN unitN partN : Str) : Str :=
  showN ++ '_' :: grpN ++ '_' :: unitN ++ '_' :: partN ++ ['_']

/-- The encoded scene file base name
`show_group_unit_part_task_version + ext`, from `TaskBranch.Scene`. -/
def sceneFileName (showN grpN unitN partN task ver ext : Str) : Str :=
  showN ++ '_' :: grpN ++ '_' :: unitN ++ '_' :: partN ++ '_' :: task ++
    '_' :: ver ++ ext

/-- The discovery version filter:
`version.startsWith("v") && parseInt(version.substring(1), 10)` must be
truthy, so `v000` (zero) and `vabc` (NaN) are rejected. -/
def versionOK (version : Str) : Bool :=
  jsStartsWith version (['v']) && jsTruthyNum (jsParseInt (version.drop 1))

/-- A directory entry as seen by `readdirSync` + `lstatSync().isFile()`. -/
structure DirEnt where
  name : Str
  isFile : Bool
deriving DecidableEq, Repr

/-- The name of `f` as a direct child of directory `d`, when it is one. -/
def childNameOf (d f : Str) : Option Str :=
  let pre := d ++ ['/']
  if pre.isPrefixOf f then
    let rest := f.drop pre.length
    if rest.contains '/' then none else some rest
  else none

/-- Model of `readdirSync(d)` with per-entry `lstat`: the regular files and
directories directly under `d`. -/
def readdirEnts (fs : FS) (d : Str) : List DirEnt :=
  fs.files.filterMap (fun f => (childNameOf d f).map (fun n => ⟨n, true⟩)) ++
    fs.dirs.filterMap (fun e => (childNameOf d e.1).map (fun n => ⟨n, false⟩))

/-- Appends a discovered version to the task map (a JS object in insertion
order): a fresh task entry is created on first sight, then the version is
pushed onto its `Versions`. -/
def addVersion (pb : PartBranch) (pg : Elo.Program) (dir : Str)
    (taskMap : List (Str × TaskBranch)) (task version : Str) :
    List (Str × TaskBranch) :=
  match taskMap.lookup task with
  | none =>
    taskMap ++ [(task, ⟨pb, task, pg, dir, [version]⟩)]
  | some _ =>
    taskMap.map (fun e =>
      if e.1 = task then (e.1, { e.2 with Versions := e.2.Versions ++ [version] })
      else e)

/-- One iteration of the `PartBranch.Tasks` scan loop over a directory
entry: skip non-files, files with the wrong extension, files without the
`show_group_unit_part_` prefix, remainders without an underscore, and
rejected version tokens; otherwise record the (task, version) pair.  The
last underscore token is the version, the rest rejoined is the task. -/
def scanFile (pb : PartBranch) (pg : Elo.Program) (pre ext dir : Str)
    (taskMap : List (Str × TaskBranch)) (e : DirEnt) :
    List (Str × TaskBranch) :=
  if e.isFile = false then taskMap
  else if jsEndsWith e.name ext = false then taskMap
  else
    let f := e.name.take (e.name.length - ext.length)
    if jsStartsWith f pre = false then taskMap
    else
      let f := f.drop pre.length
      let ws := splitChar '_' f
      if ws.length = 1 then taskMap
      else
        let version := (ws.getLast?).getD []
        let task := joinChar '_' ws.dropLast
        if versionOK version = false then taskMap
        else addVersion pb pg dir taskMap task version

/-- The full `PartBranch.Tasks` scan over a directory listing: fold the
per-file step, sort each task's versions with the default (string) sort,
then sort the tasks by name with `compare`. -/
def scanTasks (pb : PartBranch) (pg : Elo.Program) (pre ext dir : Str)
    (ents : List DirEnt) : List TaskBranch :=
  let m := ents.foldl (scanFile pb pg pre ext dir) []
  let ts := m.map (fun e => { e.2 with Versions := sortBy lexLe e.2.Versions })
  sortBy (fun a b => lexLe a.Name b.Name) ts

/-- Model of `PartBranch.Tasks(prog)`: resolve the program's scene directory (error
when the part does not declare `prog`), return `[]` when that directory
does not exist, error when the program is not defined globally, otherwise
scan the directory listing. -/
def Tasks (cfg : Config) (fs : FS) (pb : PartBranch) (prog : Str) :
    Except Str (List TaskBranch) :=
  match ProgramAt pb prog with
  | .error e => .error e
  | .ok progDir =>
    let dir := pathJoin pb.Dir progDir
    if (existsSync fs dir : Bool) = false then .ok []
    else
      match cfg.siteInfo.programs.lookup prog with
      | none => .error (("program not defined: ").data ++ prog)
      | some pg =>
        let showN := pb.parent.parent.parent.parent.Name
        let grpN := pb.parent.parent.Name
        let unitN := pb.parent.Name
        let partN := pb.Name
        .ok (scanTasks pb pg (scanPre showN grpN unitN partN) pg.Ext dir
          (readdirEnts fs dir))

/-- Model of `TaskBranch.Scene(ver)`: a falsy `ver` (omitted or empty) falls back to
`Versions[Versions.length - 1]`; on an empty version list that JS index is
`undefined`, which string concatenation turns into the literal text
`"undefined"` — no error is raised. -/
def Scene (t : TaskBranch) (ver : Option Str) : Str :=
  let v := if jsFalsyStr ver then t.Versions.getLast? else ver
  let showN := t.parent.parent.parent.parent.parent.Name
  let grpN := t.parent.parent.parent.Name
  let unitN := t.parent.parent.Name
  let partN := t.parent.Name
  pathJoin t.Dir (sceneFileName showN grpN unitN partN t.Name (jsStr v) t.Program.Ext)

/-- A reified external-process invocation of the schema-driven
implementation: `execFileSync` / `spawn` get the command, the argument list
and (when an options object with `env` is supplied) an environment.  The
schema-driven code passes no `env` option anywhere, hence `env := none`
models environment inheritance with no injection. -/
structure ExecCall where
  cmd : Str
  args : List Str
  env : Option (List (Str × Str))
deriving DecidableEq, Repr

/-- Model of `TaskBranch.Create(ver)`: error when the scene file already exists or
when no create command is registered for the platform; otherwise invoke
`execFileSync(create, [scene])` — with no environment injection. -/
def TaskCreate (cfg : Config) (fs : FS) (t : TaskBranch) (ver : Option Str) :
    Except Str ExecCall :=
  let scene := Scene t ver
  if existsSync fs scene then
    .error (("scene already exists: ").data ++ scene)
  else
    match t.Program.CreateCmd.lookup cfg.platform with
    | none => .error (("not supported os: ").data ++ cfg.platform)
    | some c => .ok { cmd := pathJoin cfg.siteRoot c, args := [scene], env := none }

/-- Model of `TaskBranch.Open(ver)`: error when no open command is registered for the
platform; otherwise `spawn(open, [scene], { detach: true }, handleError)` —
detached, with no environment injection and no existence or version check. -/
def TaskOpen (cfg : Config) (t : TaskBranch) (ver : Option Str) :
    Except Str ExecCall :=
  let scene := Scene t ver
  match t.Program.OpenCmd.lookup cfg.platform with
  | none => .error (("not supported os: ").data ++ cfg.platform)
  | some c => .ok { cmd := pathJoin cfg.siteRoot c, args := [scene], env := none }

/-! ## The asynchronous spawn error handler (`spawn` in `part_001`,
`mySpawn` in `part_000` — identical code) -/

/-- The terminal outcome of a spawned process: it either reaches `exit`
(with a numeric code, or `null` when killed by a signal) having written
`stderr`, or fails to spawn and reports an `error` event. -/
inductive ProcOutcome where
  | exited (code : Option Int) (stderr : Str)
  | failed (err : Str)
deriving DecidableEq, Repr

/-- JS coercion of the exit code into the error message (`null` prints as
`"null"`). -/
def jsNumStr : Option Int → Str
  | none => ("null").data
  | some n => (toString n).data

/-- The invocations of `handleError` produced by the handlers `spawn` wires
up, per terminal outcome: a loosely non-zero exit code (`code != 0`, so
`null` included) yields one composed message `exit with error CODE: STDERR`;
a spawn failure passes the raw error through; exit code `0` yields nothing. -/
def spawnHandlerCalls : ProcOutcome → List Str
  | .exited code stderr =>
    if code = some 0 then []
    else [("exit with error ").data ++ jsNumStr code ++ ':' :: ' ' :: stderr]
  | .failed err => [err]

/-! ## The hard-coded implementation (`part_000`): the Shot category's
environment and launcher invocation -/

/-- Model of `ProjectDir(prj)` over the configured project root. -/
def ProjectDir (projectRoot prj : String) : String := projectRoot ++ "/" ++ prj

/-- The Shot category's `groupRoot`. -/
def shotGroupRoot (projectRoot prj : String) : String :=
  ProjectDir projectRoot prj ++ "/shot"

/-- Model of `Category.GroupDir` for the Shot category. -/
def shotGroupDir (projectRoot prj grp : String) : String :=
  shotGroupRoot projectRoot prj ++ "/" ++ grp

/-- The Shot category's `unitRoot`. -/
def shotUnitRoot (projectRoot prj grp : String) : String :=
  ProjectDir projectRoot prj ++ "/shot/" ++ grp

/-- Model of `Category.UnitDir` for the Shot category. -/
def shotUnitDir (projectRoot prj grp unit : String) : String :=
  shotUnitRoot projectRoot prj grp ++ "/" ++ unit

/-- The Shot category's `partRoot`. -/
def shotPartRoot (projectRoot prj grp unit : String) : String :=
  ProjectDir projectRoot prj ++ "/shot/" ++ grp ++ "/" ++ unit ++ "/work"

/-- Model of `Category.PartDir` for the Shot category. -/
def shotPartDir (projectRoot prj grp unit part : String) : String :=
  shotPartRoot projectRoot prj grp unit ++ "/" ++ part

/-- Model of `Category.SceneEnviron(prj, grp, unit, part, task)`, instantiated for
the Shot category: exactly these nine variables — the category itself never
appears, neither as a name nor as a directory, and there is no task-level
directory. -/
def shotSceneEnviron (projectRoot prj grp unit part task : String) :
    List (String × String) :=
  [ ("PRJ", prj)
  , ("GROUP", grp)
  , ("SHOT", unit)
  , ("PART", part)
  , ("TASK", task)
  , ("PRJD", ProjectDir projectRoot prj)
  , ("GROUPD", shotGroupDir projectRoot prj grp)
  , ("SHOTD", shotUnitDir projectRoot prj grp unit)
  , ("PARTD", shotPartDir projectRoot prj grp unit part) ]

/-- JS `env[k] = v` on an object modelled as an insertion-ordered map. -/
def setEnv (e : List (String × String)) (k v : String) : List (String × String) :=
  if (e.lookup k).isSome then e.map (fun x => if x.1 = k then (k, v) else x)
  else e ++ [(k, v)]

/-- The `for (let e in sceneEnv) env[e] = sceneEnv[e]` merge of `CreateTask`
/ `OpenTask` over a clone of `process.env`. -/
def jsAssignEnv (base extra : List (String × String)) : List (String × String) :=
  extra.foldl (fun acc kv => setEnv acc kv.1 kv.2) base

/-- Model of `Program.SceneName` of `part_000`. -/
def sceneName000 (dir prj grp unit part task ver ext : String) : String :=
  dir ++ "/" ++ prj ++ "_" ++ grp ++ "_" ++ unit ++ "_" ++ part ++ "_" ++
    task ++ "_" ++ ver ++ ext

/-- A reified launcher invocation of the hard-coded implementation: command,
arguments and the explicitly passed environment object. -/
structure Invocation where
  cmd : String
  args : List String
  env : List (String × String)
deriving DecidableEq, Repr

/-- The open command resolved by `newNukeAt`'s `OpenScene` closure. -/
def nukeOpenCmd (siteRoot platform : String) : String :=
  if platform = "win32" then siteRoot ++ "/runner/nuke_open.bat"
  else siteRoot ++ "/runner/nuke_open.sh"

/-- Model of `Shot.OpenTask(prj, grp, unit, part, task, "nuke", ver, handleError)`
for the comp part, whose program table maps `nuke` to `newNukeAt(partDir)`:
compute the scene name, merge `SceneEnviron` over a clone of `process.env`,
and spawn the open command detached with that environment. -/
def shotOpenTaskNuke (siteRoot projectRoot platform : String)
    (procEnv : List (String × String)) (prj grp unit part task ver : String) :
    Invocation :=
  let partDir := shotPartDir projectRoot prj grp unit part
  let scene := sceneName000 partDir prj grp unit part task ver (".nk")
  let env := jsAssignEnv procEnv (shotSceneEnviron projectRoot prj grp unit part task)
  { cmd := nukeOpenCmd siteRoot platform, args := [scene], env := env }

/-- Whether an environment carries `v` as the value of some variable. -/
def envMentions (env : List (String × String)) (v : String) : Bool :=
  (env.map Prod.snd).contains v

/-! ## Raw schema documents and `validateSiteInfo` (the `Load` contract) -/

/-- A JSON value sitting in a `Perm` slot: a string, or something else. -/
inductive PermVal where
  | str (s : String)
  | nonStr
deriving DecidableEq, Repr

/-- A raw `Dir` object; `none` fields model absent attributes. -/
structure RawDir where
  Name : Option String
  Perm : Option PermVal
deriving DecidableEq, Repr

/-- A raw `BranchInfo` object. -/
structure RawBranchInfo where
  Label : Option String
  Subdirs : Option (List RawDir)
  ChildRoot : Option String
deriving DecidableEq, Repr

/-- A raw `PartInfo` object. -/
structure RawPartInfo where
  Label : Option String
  Subdirs : Option (List RawDir)
  ProgramDir : Option (List (String × String))
deriving DecidableEq, Repr

/-- A raw `Program` object; only attribute presence is ever validated. -/
structure RawProgram where
  Name : Option String
  Ext : Option String
  CreateCmd : Option String
  OpenCmd : Option String
deriving DecidableEq, Repr

/-- A raw entry of `categories`. -/
structure RawCtgInfo where
  group : Option RawBranchInfo
  unit : Option RawBranchInfo
  part : Option (List (String × RawPartInfo))
deriving DecidableEq, Repr

/-- A raw schema document (attributes `show` / `category` renamed as in
`SiteInfo`). -/
structure RawSiteInfo where
  showInfo : Option RawBranchInfo
  categoryInfo : Option RawBranchInfo
  categories : Option (List (String × RawCtgInfo))
  programs : Option (List (String × RawProgram))
deriving DecidableEq, Repr

/-- Model of `mustHaveAttrs(label, obj, attrs)`: error on the first absent attribute. -/
def mustHaveAttrs (label : String) : List (String × Bool) → Except String Unit
  | [] => .ok ()
  | (a, present) :: rest =>
    if present then mustHaveAttrs label rest
    else .error (label ++ ": does not have attribute: " ++ a)

/-- Model of `validateDir`: `Name` and `Perm` must be present and `Perm` must be a
string of length exactly 4 (an absent `Perm` already failed the attribute
check; a non-string one fails the `typeof` test). -/
def validateDir (label : String) (d : RawDir) : Except String Unit := do
  mustHaveAttrs label [("Name", d.Name.isSome), ("Perm", d.Perm.isSome)]
  match d.Perm with
  | some (.str s) =>
    if s.length ≠ 4 then
      .error (label ++ ": permissions must be 4-character strings")
    else .ok ()
  | _ => .error (label ++ ": permissions must be 4-character strings")

/-- The `for (let d of info.Subdirs) validateDir(label, d)` loop. -/
def validateDirList (label : String) : List RawDir → Except String Unit
  | [] => .ok ()
  | d :: rest => do
    validateDir label d
    validateDirList label rest

/-- Model of `validateBranchInfo`: the three attributes must be present, and every
subdirectory spec must pass `validateDir`.  (The `getD` default is
unreachable: an absent `Subdirs` already failed the attribute check.) -/
def validateBranchInfo (label : String) (info : RawBranchInfo) :
    Except String Unit := do
  mustHaveAttrs label
    [ ("Label", info.Label.isSome)
    , ("Subdirs", info.Subdirs.isSome)
    , ("ChildRoot", info.ChildRoot.isSome) ]
  validateDirList label (info.Subdirs.getD [])

/-- Model of `validatePartInfo`: attribute presence only — note that a part's
`Subdirs` entries are *not* passed through `validateDir`, so their
permission strings are never checked. -/
def validatePartInfo (label : String) (info : RawPartInfo) :
    Except String Unit :=
  mustHaveAttrs label
    [ ("Label", info.Label.isSome)
    , ("Subdirs", info.Subdirs.isSome)
    , ("ProgramDir", info.ProgramDir.isSome) ]

/-- Model of `validateProgram`: attribute presence only. -/
def validateProgram (label : String) (p : RawProgram) : Except String Unit :=
  mustHaveAttrs label
    [ ("Name", p.Name.isSome)
    , ("Ext", p.Ext.isSome)
    , ("CreateCmd", p.CreateCmd.isSome)
    , ("OpenCmd", p.OpenCmd.isSome) ]

/-- The `for (let p in ctgInfo.part) validatePartInfo(...)` loop. -/
def validatePartList (label : String) : List (String × RawPartInfo) →
    Except String Unit
  | [] => .ok ()
  | (p, pi) :: rest => do
    validatePartInfo (label ++ "[part][" ++ p ++ "]") pi
    validatePartList label rest

/-- The per-category body of `validateSiteInfo`'s `categories` loop. -/
def validateCtgInfo (label : String) (ci : RawCtgInfo) : Except String Unit := do
  mustHaveAttrs label
    [ ("group", ci.group.isSome)
    , ("unit", ci.unit.isSome)
    , ("part", ci.part.isSome) ]
  validateBranchInfo label (ci.group.getD ⟨none, none, none⟩)
  validateBranchInfo label (ci.unit.getD ⟨none, none, none⟩)
  validatePartList label (ci.part.getD [])

/-- The `for (let ctg in info.categories)` loop. -/
def validateCtgList : List (String × RawCtgInfo) → Except String Unit
  | [] => .ok ()
  | (ctg, ci) :: rest => do
    validateCtgInfo ("siteInfo[categories][" ++ ctg ++ "]") ci
    validateCtgList rest

/-- The `for (let part in info.programs)` loop. -/
def validateProgramList : List (String × RawProgram) → Except String Unit
  | [] => .ok ()
  | (nm, p) :: rest => do
    validateProgram ("siteInfo[programs][" ++ nm ++ "]") p
    validateProgramList rest

/-- Model of `validateSiteInfo`, the whole `Load` validation. -/
def validateSiteInfo (info : RawSiteInfo) : Except String Unit := do
  mustHaveAttrs ("siteInfo")
    [ ("show", info.showInfo.isSome)
    , ("category", info.categoryInfo.isSome)
    , ("categories", info.categories.isSome)
    , ("programs", info.programs.isSome) ]
  validateBranchInfo ("siteInfo[show]") (info.showInfo.getD ⟨none, none, none⟩)
  validateBranchInfo ("siteInfo[category]") (info.categoryInfo.getD ⟨none, none, none⟩)
  validateCtgList (info.categories.getD [])
  validateProgramList (info.programs.getD [])

/-! ## Claim-side predicates (formalising the spec's wording) -/

/-- Spec wording of the discovery version rule: the token starts with `v`
followed by text that parses (in the JS sense) to a non-zero integer. -/
def specVersionAccepted (version : Str) : Prop :=
  jsStartsWith version (['v']) = true ∧
    ∃ n : Int, jsParseInt (version.drop 1) = some n ∧ n ≠ 0

/-- Claim-side attribute presence of a raw `Dir`. -/
def rawDirPresent (d : RawDir) : Bool := d.Name.isSome && d.Perm.isSome

/-- Claim-side attribute presence of a raw `BranchInfo` and its dirs. -/
def rawBranchPresent (b : RawBranchInfo) : Bool :=
  b.Label.isSome && b.Subdirs.isSome && b.ChildRoot.isSome &&
    (b.Subdirs.getD []).all rawDirPresent

/-- Claim-side attribute presence of a raw `PartInfo` and its dirs. -/
def rawPartPresent (p : RawPartInfo) : Bool :=
  p.Label.isSome && p.Subdirs.isSome && p.ProgramDir.isSome &&
    (p.Subdirs.getD []).all rawDirPresent

/-- Claim-side attribute presence of a raw `Program`. -/
def rawProgramPresent (p : RawProgram) : Bool :=
  p.Name.isSome && p.Ext.isSome && p.CreateCmd.isSome && p.OpenCmd.isSome

/-- Claim-side attribute presence of a raw category entry. -/
def rawCtgPresent (c : RawCtgInfo) : Bool :=
  c.group.isSome && c.unit.isSome && c.part.isSome &&
    rawBranchPresent (c.group.getD ⟨none, none, none⟩) &&
    rawBranchPresent (c.unit.getD ⟨none, none, none⟩) &&
    (c.part.getD []).all (fun p => rawPartPresent p.2)

/-- Claim-side "every required attribute is present at every level". -/
def requiredPresent (info : RawSiteInfo) : Bool :=
  info.showInfo.isSome && info.categoryInfo.isSome &&
    info.categories.isSome && info.programs.isSome &&
    rawBranchPresent (info.showInfo.getD ⟨none, none, none⟩) &&
    rawBranchPresent (info.categoryInfo.getD ⟨none, none, none⟩) &&
    (info.categories.getD []).all (fun c => rawCtgPresent c.2) &&
    (info.programs.getD []).all (fun p => rawProgramPresent p.2)

/-- A raw `Dir` whose permission, when it is a string, has length 4. -/
def permLen4 (d : RawDir) : Bool :=
  match d.Perm with
  | some (.str s) => s.length == 4
  | some (.nonStr) => true
  | none => true

/-- The subdirectory specs of an optional raw branch spec. -/
def branchDirs (b : Option RawBranchInfo) : List RawDir :=
  (b.getD ⟨none, none, none⟩).Subdirs.getD []

/-- Every raw `Dir` object anywhere in the document — branch-level and
part-level alike. -/
def docDirs (info : RawSiteInfo) : List RawDir :=
  branchDirs info.showInfo ++ branchDirs info.categoryInfo ++
    (info.categories.getD []).foldr
      (fun e acc =>
        branchDirs e.2.group ++ branchDirs e.2.unit ++
          (e.2.part.getD []).foldr (fun p a => (p.2.Subdirs.getD []) ++ a) [] ++ acc)
      []

/-- Claim-side "every permission string in the document has length 4". -/
def docPermsLen4 (info : RawSiteInfo) : Bool := (docDirs info).all permLen4

/-- Code-side validity of a raw `Dir` (what `validateDir` accepts). -/
def rawDirOK (d : RawDir) : Bool :=
  d.Name.isSome &&
    match d.Perm with
    | some (.str s) => s.length == 4
    | _ => false

/-- Code-side validity of a raw `BranchInfo`. -/
def rawBranchOK (b : RawBranchInfo) : Bool :=
  b.Label.isSome && b.Subdirs.isSome && b.ChildRoot.isSome &&
    (b.Subdirs.getD []).all rawDirOK

/-- Code-side validity of an optional raw `BranchInfo`. -/
def rawBranchOKo : Option RawBranchInfo → Bool
  | none => false
  | some b => rawBranchOK b

/-- Code-side validity of a raw `PartInfo`: attribute presence only. -/
def rawPartOK (p : RawPartInfo) : Bool :=
  p.Label.isSome && p.Subdirs.isSome && p.ProgramDir.isSome

/-- Code-side validity of a raw `Program`: attribute presence only. -/
def rawProgramOK (p : RawProgram) : Bool :=
  p.Name.isSome && p.Ext.isSome && p.CreateCmd.isSome && p.OpenCmd.isSome

/-- Code-side validity of a raw category entry. -/
def rawCtgOK (c : RawCtgInfo) : Bool :=
  c.group.isSome && c.unit.isSome && c.part.isSome &&
    rawBranchOKo c.group && rawBranchOKo c.unit &&
    (c.part.getD []).all (fun p => rawPartOK p.2)

/-- Code-side validity of a whole raw document: what `validateSiteInfo`
actually accepts (part-level subdirectory permissions unchecked). -/
def rawSiteOK (info : RawSiteInfo) : Bool :=
  info.showInfo.isSome && info.categoryInfo.isSome &&
    info.categories.isSome && info.programs.isSome &&
    rawBranchOKo info.showInfo && rawBranchOKo info.categoryInfo &&
    (info.categories.getD []).all (fun c => rawCtgOK c.2) &&
    (info.programs.getD []).all (fun p => rawProgramOK p.2)

/-! ## Concrete example schema, filesystem and documents -/

/-- A small valid schema: one category `shot`, one part `comp`, one program
`nuke`. -/
def egSiteInfo : SiteInfo :=
  { showInfo :=
      { Label := ("show").data
      , Subdirs := [⟨("scan").data, ("0755").data⟩]
      , ChildRoot := ("cat").data }
  , categoryInfo :=
      { Label := ("category").data
      , Subdirs := []
      , ChildRoot := ("grp").data }
  , categories :=
      [ ( ("shot").data
        , { group :=
              { Label := ("group").data, Subdirs := [], ChildRoot := ("unit").data }
          , unit :=
              { Label := ("unit").data, Subdirs := [], ChildRoot := ("part").data }
          , part :=
              [ ( ("comp").data
                , { Label := ("comp").data
                  , Subdirs := [⟨("render").data, ("2775").data⟩]
                  , ProgramDir := [(("nuke").data, ("nuke").data)] } ) ] } ) ]
  , programs :=
      [ ( ("nuke").data
        , { Name := ("nuke").data
          , Ext := (".nk").data
          , CreateCmd := [(("linux").data, ("runner/nuke_create.sh").data)]
          , OpenCmd := [(("linux").data, ("runner/nuke_open.sh").data)] } ) ] }

/-- Concrete globals: site root `/site`, show root `/shows`, linux. -/
def egCfg : Config :=
  { siteRoot := ("/site").data
  , showRoot := ("/shows").data
  , siteInfo := egSiteInfo
  , platform := ("linux").data }

/-- The `sh01` show branch. -/
def egShow : ShowBranch := mkShowBranch egCfg (("sh01").data)

/-- The `shot` category branch under `sh01`. -/
def egCtg : CategoryBranch :=
  ((mkCategoryBranch egCfg egShow (("shot").data)).toOption).getD default

/-- The `g1` group branch. -/
def egGrp : GroupBranch :=
  ((mkGroupBranch egCfg egCtg (("g1").data)).toOption).getD default

/-- The `u1` unit branch. -/
def egUnit : UnitBranch :=
  ((mkUnitBranch egCfg egGrp (("u1").data)).toOption).getD default

/-- The `comp` part branch. -/
def egPart : PartBranch :=
  ((mkPartBranch egCfg egUnit (("comp").data)).toOption).getD default

/-- The `nuke` program spec. -/
def egNuke : Program :=
  (egSiteInfo.programs.lookup (("nuke").data)).getD default

/-- The comp part's nuke scene directory. -/
def egTaskDir : Str := pathJoin egPart.Dir (("nuke").data)

/-- A task branch whose discovery found no versions. -/
def egTaskNoVers : TaskBranch :=
  { parent := egPart
  , Name := ("main").data
  , Program := egNuke
  , Dir := egTaskDir
  , Versions := [] }

/-- A task branch with discovered versions `v001` and `v003`. -/
def egTask13 : TaskBranch :=
  { parent := egPart
  , Name := ("main").data
  , Program := egNuke
  , Dir := egTaskDir
  , Versions := [("v001").data, ("v003").data] }

/-- Filesystem with only the show root: `sh01` does not exist yet. -/
def egFS1 : FS := { dirs := [(("/shows").data, ("0755").data)], files := [] }

/-- Filesystem where the `sh01` directory was created out of band. -/
def egFS1b : FS :=
  { dirs :=
      [ (("/shows/sh01").data, ("0755").data)
      , (("/shows").data, ("0755").data) ]
  , files := [] }

/-- Model of `egFS1b` after `CreateShow` made and chmod-ed the `scan` subdirectory. -/
def egFS1c : FS :=
  { dirs :=
      [ (("/shows/sh01/scan").data, ("0755").data)
      , (("/shows/sh01").data, ("0755").data)
      , (("/shows").data, ("0755").data) ]
  , files := [] }

/-- The directory chain from the show root down to the unit's part root —
but with no `comp` part directory. -/
def egFS7 : FS :=
  { dirs :=
      [ (("/shows").data, ("0755").data)
      , (("/shows/sh01").data, ("0755").data)
      , (("/shows/sh01/cat").data, ("0755").data)
      , (("/shows/sh01/cat/shot").data, ("0755").data)
      , (("/shows/sh01/cat/shot/grp").data, ("0755").data)
      , (("/shows/sh01/cat/shot/grp/g1").data, ("0755").data)
      , (("/shows/sh01/cat/shot/grp/g1/unit").data, ("0755").data)
      , (("/shows/sh01/cat/shot/grp/g1/unit/u1").data, ("0755").data)
      , (("/shows/sh01/cat/shot/grp/g1/unit/u1/part").data, ("0755").data) ]
  , files := [] }

/-- Model of `egFS7` extended with the comp part, its nuke scene directory, and
three scene files for task `main` (listed in non-sorted order). -/
def egFS9 : FS :=
  { dirs :=
      egFS7.dirs ++
        [ (("/shows/sh01/cat/shot/grp/g1/unit/u1/part/comp").data, ("2775").data)
        , (("/shows/sh01/cat/shot/grp/g1/unit/u1/part/comp/nuke").data, ("2775").data) ]
  , files :=
      [ (("/shows/sh01/cat/shot/grp/g1/unit/u1/part/comp/nuke/sh01_g1_u1_comp_main_v010.nk").data)
      , (("/shows/sh01/cat/shot/grp/g1/unit/u1/part/comp/nuke/sh01_g1_u1_comp_main_v002.nk").data)
      , (("/shows/sh01/cat/shot/grp/g1/unit/u1/part/comp/nuke/sh01_g1_u1_comp_main_v001.nk").data) ] }

/-- A well-formed raw subdirectory spec. -/
def egRawDir : RawDir := { Name := some (("scan")), Perm := some (.str (("0755"))) }

/-- A raw subdirectory spec with a 2-character permission string. -/
def egRawDirBadPerm : RawDir := { Name := some (("x")), Perm := some (.str (("77"))) }

/-- A well-formed raw branch spec. -/
def egRawBranch : RawBranchInfo :=
  { Label := some (("L")), Subdirs := some [egRawDir], ChildRoot := some (("c")) }

/-- A raw part spec whose subdirectory carries the bad permission — all
required attributes present. -/
def egRawPartBad : RawPartInfo :=
  { Label := some (("comp"))
  , Subdirs := some [egRawDirBadPerm]
  , ProgramDir := some [(("nuke"), ("nuke"))] }

/-- A raw category entry containing the bad part spec. -/
def egRawCtg : RawCtgInfo :=
  { group := some egRawBranch
  , unit := some egRawBranch
  , part := some [(("comp"), egRawPartBad)] }

/-- A well-formed raw program spec. -/
def egRawProgram : RawProgram :=
  { Name := some (("nuke"))
  , Ext := some ((".nk"))
  , CreateCmd := some (("c.sh"))
  , OpenCmd := some (("o.sh")) }

/-- A raw document with every required attribute present but one part-level
permission string of length 2. -/
def egRawDoc : RawSiteInfo :=
  { showInfo := some egRawBranch
  , categoryInfo := some egRawBranch
  , categories := some [(("shot"), egRawCtg)]
  , programs := some [(("nuke"), egRawProgram)] }


/-- The open invocation produced for `egTask13` with an omitted version. -/
def egOpenCall : ExecCall :=
  { cmd := ("/site/runner/nuke_open.sh").data
  , args := [("/shows/sh01/cat/shot/grp/g1/unit/u1/part/comp/nuke/sh01_g1_u1_comp_main_v003.nk").data]
  , env := none }

/-! ## Helper lemmas -/

theorem mem_orderedInsert {le : α → α → Bool} {a x : α} {l : List α} :
    x ∈ orderedInsert le a l ↔ x = a ∨ x ∈ l := by
  induction l with
  | nil => simp [orderedInsert]
  | cons b t ih =>
    cases hc : le a b with
    | true => simp [orderedInsert, hc]
    | false =>
      simp only [orderedInsert, hc, Bool.false_eq_true, if_false, List.mem_cons, ih]
      tauto

theorem mem_sortBy {le : α → α → Bool} {x : α} {l : List α} :
    x ∈ sortBy le l ↔ x ∈ l := by
  induction l with
  | nil => simp [sortBy]
  | cons a t ih => simp [sortBy, mem_orderedInsert, ih]

theorem pairwise_orderedInsert {le : α → α → Bool}
    (htr : ∀ a b c, le a b = true → le b c = true → le a c = true)
    (hto : ∀ a b, le a b = true ∨ le b a = true) (a : α) {l : List α}
    (h : List.Pairwise (fun x y => le x y = true) l) :
    List.Pairwise (fun x y => le x y = true) (orderedInsert le a l) := by
  induction l with
  | nil => simp [orderedInsert]
  | cons b t ih =>
    rcases h with _ | ⟨hb, ht⟩
    cases hc : le a b with
    | true =>
      simp only [orderedInsert, hc, if_true]
      refine List.Pairwise.cons ?_ (List.Pairwise.cons hb ht)
      intro y hy
      rcases List.mem_cons.mp hy with rfl | hy
      · exact hc
      · exact htr a b y hc (hb y hy)
    | false =>
      simp only [orderedInsert, hc, Bool.false_eq_true, if_false]
      refine List.Pairwise.cons ?_ (ih ht)
      intro y hy
      rcases mem_orderedInsert.mp hy with rfl | hy
      · rcases hto y b with hyb | hby
        · exact absurd hyb (by simp [hc])
        · exact hby
      · exact hb y hy

theorem pairwise_sortBy {le : α → α → Bool}
    (htr : ∀ a b c, le a b = true → le b c = true → le a c = true)
    (hto : ∀ a b, le a b = true ∨ le b a = true) (l : List α) :
    List.Pairwise (fun x y => le x y = true) (sortBy le l) := by
  induction l with
  | nil => simp [sortBy]
  | cons a t ih => exact pairwise_orderedInsert htr hto a ih

theorem lexLe_total : ∀ a b : Str, lexLe a b = true ∨ lexLe b a = true := by
  intro a
  induction a with
  | nil => intro b; left; rfl
  | cons x xs ih =>
    intro b
    cases b with
    | nil => right; rfl
    | cons y ys =>
      rcases lt_trichotomy x y with h | h | h
      · left; simp [lexLe, h]
      · subst h
        simp only [lexLe, lt_irrefl, if_false]
        exact ih ys
      · right; simp [lexLe, h]

theorem lexLe_trans :
    ∀ a b c : Str, lexLe a b = true → lexLe b c = true → lexLe a c = true := by
  intro a
  induction a with
  | nil => intro b c _ _; rfl
  | cons x xs ih =>
    intro b c h1 h2
    cases b with
    | nil => simp [lexLe] at h1
    | cons y ys =>
      cases c with
      | nil => simp [lexLe] at h2
      | cons z zs =>
        simp only [lexLe] at h1 h2 ⊢
        by_cases hxy : x < y
        · by_cases hyz : y < z
          · rw [if_pos (lt_trans hxy hyz)]
          · rw [if_neg hyz] at h2
            by_cases hzy : z < y
            · rw [if_pos hzy] at h2; exact absurd h2 (by simp)
            · have hyzeq : y = z := le_antisymm (not_lt.mp hzy) (not_lt.mp hyz)
              rw [if_pos (hyzeq ▸ hxy)]
        · rw [if_neg hxy] at h1
          by_cases hyx : y < x
          · rw [if_pos hyx] at h1; exact absurd h1 (by simp)
          · rw [if_neg hyx] at h1
            have hxyeq : x = y := le_antisymm (not_lt.mp hyx) (not_lt.mp hxy)
            subst hxyeq
            by_cases hxz : x < z
            · rw [if_pos hxz]
            · rw [if_neg hxz] at h2 ⊢
              by_cases hzx : z < x
              · rw [if_pos hzx] at h2; exact absurd h2 (by simp)
              · rw [if_neg hzx] at h2 ⊢
                exact ih ys zs h1 h2

theorem splitChar_ne_nil (sep : Char) (l : Str) : splitChar sep l ≠ [] := by
  induction l with
  | nil => simp [splitChar]
  | cons a rest ih =>
    by_cases h : a = sep
    · simp [splitChar, h]
    · simp only [splitChar, h, if_false]
      cases hs : splitChar sep rest with
      | nil => simp
      | cons t ts => simp

theorem splitChar_append (sep : Char) (l₁ l₂ : Str) :
    splitChar sep (l₁ ++ sep :: l₂) = splitChar sep l₁ ++ splitChar sep l₂ := by
  induction l₁ with
  | nil => simp [splitChar]
  | cons a rest ih =>
    by_cases h : a = sep
    · simp [splitChar, h, ih]
    · simp only [List.cons_append, splitChar, h, if_false]
      simp only [List.append_eq]
      rw [ih]
      cases hs : splitChar sep rest with
      | nil => exact absurd hs (splitChar_ne_nil sep rest)
      | cons t ts => simp

theorem splitChar_no_sep {sep : Char} {l : Str} (h : sep ∉ l) :
    splitChar sep l = [l] := by
  induction l with
  | nil => rfl
  | cons a rest ih =>
    have ha : ¬(a = sep) := by rintro rfl; exact h (List.mem_cons_self a rest)
    have h' : sep ∉ rest := fun hm => h (List.mem_cons_of_mem a hm)
    simp [splitChar, ha, ih h']

theorem joinChar_splitChar (sep : Char) (l : Str) :
    joinChar sep (splitChar sep l) = l := by
  induction l with
  | nil => rfl
  | cons a rest ih =>
    by_cases h : a = sep
    · subst h
      rw [show splitChar a (a :: rest) = [] :: splitChar a rest from by simp [splitChar]]
      cases hs : splitChar a rest with
      | nil => exact absurd hs (splitChar_ne_nil a rest)
      | cons t ts =>
        have hj : joinChar a ([] :: t :: ts) = a :: joinChar a (t :: ts) := rfl
        show joinChar a ([] :: t :: ts) = a :: rest
        rw [hj, ← hs, ih]
    · simp only [splitChar, h, if_false]
      cases hs : splitChar sep rest with
      | nil => exact absurd hs (splitChar_ne_nil sep rest)
      | cons t ts =>
        have hr : joinChar sep (splitChar sep rest) = rest := ih
        rw [hs] at hr
        show joinChar sep ((a :: t) :: ts) = a :: rest
        cases ts with
        | nil =>
          have hj : joinChar sep [t] = t := rfl
          rw [hj] at hr
          show a :: t = a :: rest
          rw [hr]
        | cons u us =>
          show (a :: t) ++ sep :: joinChar sep (u :: us) = a :: rest
          rw [List.cons_append]
          have hj : joinChar sep (t :: u :: us) = t ++ sep :: joinChar sep (u :: us) := rfl
          rw [hj] at hr
          rw [hr]

theorem jsEndsWith_append (x e : Str) : jsEndsWith (x ++ e) e = true :=
  List.isSuffixOf_iff_suffix.mpr (List.suffix_append x e)

theorem isPrefixOf_self_append (p r : Str) : p.isPrefixOf (p ++ r) = true := by
  induction p with
  | nil => simp [List.isPrefixOf]
  | cons a as ih => simp [List.isPrefixOf, ih]

theorem jsStartsWith_append (p r : Str) : jsStartsWith (p ++ r) p = true :=
  isPrefixOf_self_append p r

theorem take_sub_append (x e : Str) :
    (x ++ e).take ((x ++ e).length - e.length) = x := by
  rw [List.length_append, Nat.add_sub_cancel, List.take_left]

theorem seq_ok {e : Except String Unit} {f : Unit → Except String Unit} :
    (e >>= f) = Except.ok () ↔ (e = Except.ok () ∧ f () = Except.ok ()) := by
  cases e with
  | error a => simp [Bind.bind, Except.bind]
  | ok a => cases a; simp [Bind.bind, Except.bind]

theorem mustHaveAttrs_ok (label : String) (l : List (String × Bool)) :
    mustHaveAttrs label l = .ok () ↔ l.all (fun a => a.2) = true := by
  induction l with
  | nil => simp [mustHaveAttrs]
  | cons a rest ih =>
    obtain ⟨nm, p⟩ := a
    cases p
    · simp [mustHaveAttrs, List.all_cons]
    · simp [mustHaveAttrs, List.all_cons, ih]

theorem validateDir_ok (label : String) (d : RawDir) :
    validateDir label d = .ok () ↔ rawDirOK d = true := by
  unfold validateDir rawDirOK
  rw [seq_ok, mustHaveAttrs_ok]
  cases hperm : d.Perm with
  | none => simp
  | some pv =>
    cases pv with
    | str s =>
      by_cases hs : s.length = 4
      · simp [hs, beq_iff_eq]
      · simp [hs, beq_iff_eq]
    | nonStr => simp

theorem validateDirList_ok (label : String) (l : List RawDir) :
    validateDirList label l = .ok () ↔ l.all rawDirOK = true := by
  induction l with
  | nil => simp [validateDirList]
  | cons d rest ih =>
    rw [show validateDirList label (d :: rest) =
        validateDir label d >>= fun _ => validateDirList label rest from rfl,
      seq_ok, validateDir_ok, ih]
    simp [List.all_cons, Bool.and_eq_true]

theorem validateBranchInfo_ok (label : String) (b : RawBranchInfo) :
    validateBranchInfo label b = .ok () ↔ rawBranchOK b = true := by
  unfold validateBranchInfo rawBranchOK
  rw [seq_ok, mustHaveAttrs_ok, validateDirList_ok]
  cases hs : b.Subdirs with
  | none => simp [List.all_cons]
  | some l => simp [List.all_cons, Bool.and_eq_true, and_assoc]

theorem validatePartInfo_ok (label : String) (p : RawPartInfo) :
    validatePartInfo label p = .ok () ↔ rawPartOK p = true := by
  unfold validatePartInfo rawPartOK
  rw [mustHaveAttrs_ok]
  simp [List.all_cons, Bool.and_eq_true, and_assoc]

theorem validateProgram_ok (label : String) (p : RawProgram) :
    validateProgram label p = .ok () ↔ rawProgramOK p = true := by
  unfold validateProgram rawProgramOK
  rw [mustHaveAttrs_ok]
  simp [List.all_cons, Bool.and_eq_true, and_assoc]

theorem validatePartList_ok (label : String) (l : List (String × RawPartInfo)) :
    validatePartList label l = .ok () ↔ l.all (fun p => rawPartOK p.2) = true := by
  induction l with
  | nil => simp [validatePartList]
  | cons e rest ih =>
    obtain ⟨nm, pi⟩ := e
    rw [show validatePartList label ((nm, pi) :: rest) =
        validatePartInfo (label ++ "[part][" ++ nm ++ "]") pi >>= fun _ =>
          validatePartList label rest from rfl,
      seq_ok, validatePartInfo_ok, ih]
    simp [List.all_cons, Bool.and_eq_true]

theorem validateCtgInfo_ok (label : String) (ci : RawCtgInfo) :
    validateCtgInfo label ci = .ok () ↔ rawCtgOK ci = true := by
  unfold validateCtgInfo rawCtgOK
  rw [seq_ok, seq_ok, seq_ok, mustHaveAttrs_ok, validateBranchInfo_ok,
    validateBranchInfo_ok, validatePartList_ok]
  cases hg : ci.group <;> cases hu : ci.unit <;> cases hp : ci.part <;>
    simp [rawBranchOKo, List.all_cons, Bool.and_eq_true, and_assoc]

theorem validateCtgList_ok (l : List (String × RawCtgInfo)) :
    validateCtgList l = .ok () ↔ l.all (fun c => rawCtgOK c.2) = true := by
  induction l with
  | nil => simp [validateCtgList]
  | cons e rest ih =>
    obtain ⟨nm, ci⟩ := e
    rw [show validateCtgList ((nm, ci) :: rest) =
        validateCtgInfo ("siteInfo[categories][" ++ nm ++ "]") ci >>= fun _ =>
          validateCtgList rest from rfl,
      seq_ok, validateCtgInfo_ok, ih]
    simp [List.all_cons, Bool.and_eq_true]

theorem validateProgramList_ok (l : List (String × RawProgram)) :
    validateProgramList l = .ok () ↔ l.all (fun p => rawProgramOK p.2) = true := by
  induction l with
  | nil => simp [validateProgramList]
  | cons e rest ih =>
    obtain ⟨nm, p⟩ := e
    rw [show validateProgramList ((nm, p) :: rest) =
        validateProgram ("siteInfo[programs][" ++ nm ++ "]") p >>= fun _ =>
          validateProgramList rest from rfl,
      seq_ok, validateProgram_ok, ih]
    simp [List.all_cons, Bool.and_eq_true]

/-! ## Claim theorems -/

/-- Claim C1: the spec says `Create(name)` creates the branch's own
directory and every declared subdirectory, raising `AlreadyExistsError`
when the target directory exists, and that a second `Create(name)` raises
`AlreadyExistsError`.  The code diverges: `CreateShow` never creates (nor
checks) the show directory itself.  Concretely: (1) on a filesystem holding
only the show root, `CreateShow("sh01")` fails with `ENOENT` while creating
the first subdirectory, creating nothing; (2) when `/shows/sh01` was made
out of band, `CreateShow` only creates the declared `scan` subdirectory
(with its declared permission) without any already-exists check of the
target; (3) a repeated call then fails with `EEXIST` — but about the
subdirectory, not the target directory. -/
theorem c1_create_show_divergence :
    CreateShow egCfg egFS1 (("sh01").data) =
      .error ((("ENOENT: no such file or directory, mkdir ").data) ++
        (("/shows/sh01/scan").data)) ∧
    CreateShow egCfg egFS1b (("sh01").data) = .ok egFS1c ∧
    CreateShow egCfg egFS1c (("sh01").data) =
      .error ((("EEXIST: file already exists, mkdir ").data) ++
        (("/shows/sh01/scan").data)) :=
  ⟨rfl, rfl, rfl⟩

/-- Claim C2 (counterexample): the claim states that `Load` succeeds iff
every required attribute is present *and every permission string in the
document has length exactly 4*.  `egRawDoc` has every required attribute
present but a part-level subdirectory permission `"77"`; validation still
succeeds, so the stated equivalence is false. -/
theorem c2_counterexample :
    ¬ (validateSiteInfo egRawDoc = .ok () ↔
        (requiredPresent egRawDoc && docPermsLen4 egRawDoc) = true) :=
  fun h => absurd (h.mp rfl) (by decide)

/-- Claim C2 (amended): `Load` succeeds iff every required attribute is
present at every level and every permission entry of the show-, category-,
group- and unit-level subdirectory specs is a string of length exactly 4;
part-level subdirectory permissions are never validated.  In particular
removing any single required attribute makes `rawSiteOK` false and hence
forces a `ConfigError`. -/
theorem c2_load_iff_amended (info : RawSiteInfo) :
    validateSiteInfo info = .ok () ↔ rawSiteOK info = true := by
  unfold validateSiteInfo rawSiteOK
  rw [seq_ok, seq_ok, seq_ok, seq_ok, mustHaveAttrs_ok, validateBranchInfo_ok,
    validateBranchInfo_ok, validateCtgList_ok, validateProgramList_ok]
  cases hs : info.showInfo <;> cases hc : info.categoryInfo <;>
    cases hcs : info.categories <;> cases hp : info.programs <;>
    simp [rawBranchOKo, List.all_cons, Bool.and_eq_true, and_assoc]

/-- Witness for C2: the amended equivalence applied to the concrete
document whose validation succeeds. -/
theorem c2_witness : rawSiteOK egRawDoc = true :=
  (c2_load_iff_amended egRawDoc).mp rfl

/-- Claim C5: per terminal process outcome, a non-zero exit yields exactly
one error-callback invocation carrying the composed message with the exit
code and the captured stderr, a spawn failure passes the raw error through
exactly once, and a zero exit yields no invocation.  (Each spawned process
produces one terminal outcome, so per-outcome call lists model
"exactly once".) -/
theorem c5_error_callback :
    (∀ (c : Int) (stderr : Str), c ≠ 0 →
        spawnHandlerCalls (.exited (some c) stderr) =
          [(("exit with error ").data) ++ jsNumStr (some c) ++ ':' :: ' ' :: stderr]) ∧
    (∀ stderr : Str, spawnHandlerCalls (.exited (some 0) stderr) = []) ∧
    (∀ err : Str, spawnHandlerCalls (.failed err) = [err]) := by
  refine ⟨?_, fun _ => rfl, fun _ => rfl⟩
  intro c stderr hc
  simp [spawnHandlerCalls, hc]

/-- Witness for C5: exit code 2 with stderr `boom` produces exactly one
callback whose message contains both. -/
theorem c5_witness :
    spawnHandlerCalls (ProcOutcome.exited (some 2) (("boom").data)) =
      [(("exit with error 2: boom").data)] :=
  (c5_error_callback.1 2 (("boom").data) (by decide)).trans (by decide)

/-- Claim C8: the discovery version filter accepts a token iff it starts
with `v` and the remainder parses (JS `parseInt`) to a non-zero integer;
`v000` (zero) and `vabc` (NaN) are rejected, `v002` is accepted. -/
theorem c8_version_filter :
    (∀ version : Str, versionOK version = true ↔ specVersionAccepted version) ∧
    versionOK (("v000").data) = false ∧
    versionOK (("vabc").data) = false ∧
    versionOK (("v002").data) = true := by
  refine ⟨?_, rfl, rfl, rfl⟩
  intro version
  unfold versionOK specVersionAccepted
  rw [Bool.and_eq_true]
  constructor
  · rintro ⟨h1, h2⟩
    refine ⟨h1, ?_⟩
    cases hp : jsParseInt (version.drop 1) with
    | none => rw [hp] at h2; simp [jsTruthyNum] at h2
    | some n =>
      rw [hp] at h2
      exact ⟨n, rfl, by simpa [jsTruthyNum, bne_iff_ne] using h2⟩
  · rintro ⟨h1, n, hp, hn⟩
    exact ⟨h1, by rw [hp]; simpa [jsTruthyNum, bne_iff_ne] using hn⟩

/-- Witness for C8: the characterization applied at `v010`. -/
theorem c8_witness : specVersionAccepted (("v010").data) :=
  (c8_version_filter.1 (("v010").data)).mp rfl

/-- Claim C10: for a program declared in the part's `ProgramDir`, when the
program's scene directory does not exist, `Tasks(prog)` returns the empty
list rather than an error. -/
theorem c10_missing_dir_empty (cfg : Config) (fs : FS) (pb : PartBranch)
    (prog progDir : Str) (h1 : ProgramAt pb prog = .ok progDir)
    (h2 : existsSync fs (pathJoin pb.Dir progDir) = false) :
    Tasks cfg fs pb prog = .ok [] := by
  unfold Tasks
  rw [h1]
  simp [h2]

/-- Witness for C10: the comp part declares `nuke`, whose scene directory
is absent from `egFS7`. -/
theorem c10_witness : Tasks egCfg egFS7 egPart (("nuke").data) = .ok [] :=
  c10_missing_dir_empty egCfg egFS7 egPart (("nuke").data) (("nuke").data) rfl rfl

/-- Claim C4 (counterexample): the claim says an omitted version on a task
with an empty discovered version list raises `NoVersionError`; instead
`TaskBranch.Open` succeeds and spawns on a scene path whose version slot is
the literal text `undefined`. -/
theorem c4_counterexample :
    TaskOpen egCfg egTaskNoVers none =
      .ok { cmd := (("/site/runner/nuke_open.sh").data)
          , args := [(("/shows/sh01/cat/shot/grp/g1/unit/u1/part/comp/nuke/sh01_g1_u1_comp_main_undefined.nk").data)]
          , env := none } := rfl

/-- Claim C4 (amended): with a falsy version argument `Scene` resolves to
the last entry of the task's version list (so `["v001","v003"]` resolves to
`v003`); on an empty version list no error is raised — the encoded scene
name carries the literal text `undefined` in its version slot. -/
theorem c4_scene_version_resolution :
    (∀ (t : TaskBranch) (vs : List Str) (v : Str), t.Versions = vs ++ [v] →
        Scene t none =
          pathJoin t.Dir (sceneFileName t.parent.parent.parent.parent.parent.Name
            t.parent.parent.parent.Name t.parent.parent.Name t.parent.Name
            t.Name v t.Program.Ext)) ∧
    (∀ t : TaskBranch, t.Versions = [] →
        Scene t none =
          pathJoin t.Dir (sceneFileName t.parent.parent.parent.parent.parent.Name
            t.parent.parent.parent.Name t.parent.parent.Name t.parent.Name
            t.Name (("undefined").data) t.Program.Ext)) := by
  constructor
  · intro t vs v h
    simp [Scene, jsFalsyStr, h, List.getLast?_concat, jsStr]
  · intro t h
    simp [Scene, jsFalsyStr, h, jsStr]

/-- Witness for C4: the task with versions `["v001","v003"]` and an omitted
version opens `v003`. -/
theorem c4_witness :
    Scene egTask13 none =
      (("/shows/sh01/cat/shot/grp/g1/unit/u1/part/comp/nuke/sh01_g1_u1_comp_main_v003.nk").data) :=
  (c4_scene_version_resolution.1 egTask13 [("v001").data] (("v003").data) rfl).trans
    (by decide)

/-- Claim C6 (counterexample): the claim says every launcher command runs
with an environment carrying the whole identifying chain including the
category.  For a Shot-category open invocation with an empty process
environment, the injected environment's values are the show, group, unit,
part and task names plus four directories — the category name `shot` is not
among them (and the schema-driven implementation injects no environment at
all). -/
theorem c6_counterexample :
    envMentions
      (shotOpenTaskNuke ("/site") ("/prjroot") ("linux") [] ("prj1") ("g1")
        ("u1") ("comp") ("main") ("v001")).env ("shot") = false := by decide

/-- Claim C6 (amended): every launcher invocation passes the scene path as
the sole argument.  The hard-coded implementation injects exactly the nine
variables `PRJ GROUP SHOT PART TASK PRJD GROUPD SHOTD PARTD` (names of
show, group, unit, part, task and the project/group/unit/part directories —
no category, no task directory) over a clone of the process environment;
the schema-driven implementation passes no environment object at all, for
scene create and scene open alike. -/
theorem c6_invocation_amended :
    (∀ (siteRoot projectRoot platform : String)
        (procEnv : List (String × String)) (prj grp unit part task ver : String),
        shotOpenTaskNuke siteRoot projectRoot platform procEnv prj grp unit part task ver =
          { cmd := nukeOpenCmd siteRoot platform
          , args := [sceneName000 (shotPartDir projectRoot prj grp unit part)
              prj grp unit part task ver (".nk")]
          , env := jsAssignEnv procEnv
              (shotSceneEnviron projectRoot prj grp unit part task) }) ∧
    (∀ (projectRoot prj grp unit part task : String),
        (shotSceneEnviron projectRoot prj grp unit part task).map Prod.fst =
          [("PRJ"), ("GROUP"), ("SHOT"), ("PART"), ("TASK"), ("PRJD"), ("GROUPD"),
            ("SHOTD"), ("PARTD")]) ∧
    (∀ (cfg : Config) (t : TaskBranch) (ver : Option Str) (inv : ExecCall),
        TaskOpen cfg t ver = .ok inv → inv.args = [Scene t ver] ∧ inv.env = none) ∧
    (∀ (cfg : Config) (fs : FS) (t : TaskBranch) (ver : Option Str) (inv : ExecCall),
        TaskCreate cfg fs t ver = .ok inv → inv.args = [Scene t ver] ∧ inv.env = none) := by
  refine ⟨fun _ _ _ _ _ _ _ _ _ _ => rfl, fun _ _ _ _ _ _ => rfl, ?_, ?_⟩
  · intro cfg t ver inv h
    simp only [TaskOpen] at h
    cases hl : t.Program.OpenCmd.lookup cfg.platform with
    | none => rw [hl] at h; simp at h
    | some c =>
      rw [hl] at h
      simp only [Except.ok.injEq] at h
      subst h
      exact ⟨rfl, rfl⟩
  · intro cfg fs t ver inv h
    simp only [TaskCreate] at h
    by_cases he : existsSync fs (Scene t ver) = true
    · rw [if_pos he] at h; simp at h
    · rw [if_neg he] at h
      cases hl : t.Program.CreateCmd.lookup cfg.platform with
      | none => rw [hl] at h; simp at h
      | some c =>
        rw [hl] at h
        simp only [Except.ok.injEq] at h
        subst h
        exact ⟨rfl, rfl⟩

/-- Witness for C6: the concrete open invocation for `egTask13` carries the
scene path as sole argument and no injected environment. -/
theorem c6_witness : egOpenCall.args = [Scene egTask13 none] ∧ egOpenCall.env = none :=
  c6_invocation_amended.2.2.1 egCfg egTask13 none egOpenCall rfl

/-- Claim C7 (counterexample): the claim says every branch level's Get
verifies the directory and raises `NotFoundError` when absent.
`UnitBranch.Part` succeeds although the part directory is absent from the
filesystem. -/
theorem c7_counterexample :
    Part egCfg egUnit (("comp").data) = .ok egPart ∧
    existsSync egFS7 egPart.Dir = false :=
  ⟨rfl, rfl⟩

/-- Claim C7 (amended): `Show`, `Group` and `Unit` Gets construct the
branch and succeed exactly when its directory exists (raising a not-found
error otherwise, creating nothing — they only read the filesystem);
`Category` and `Part` construct the branch with schema-side name checks
only and never consult the filesystem. -/
theorem c7_get_amended :
    (∀ (cfg : Config) (fs : FS) (name : Str),
        (Show cfg fs name).isOk = existsSync fs (mkShowBranch cfg name).Dir) ∧
    (∀ (cfg : Config) (fs : FS) (c : CategoryBranch) (name : Str) (g : GroupBranch),
        mkGroupBranch cfg c name = .ok g →
          (Group cfg fs c name).isOk = existsSync fs g.Dir) ∧
    (∀ (cfg : Config) (fs : FS) (g : GroupBranch) (name : Str) (u : UnitBranch),
        mkUnitBranch cfg g name = .ok u →
          (Unit' cfg fs g name).isOk = existsSync fs u.Dir) ∧
    (∀ (cfg : Config) (s : ShowBranch) (name : Str),
        (Category cfg s name).isOk = (ValidCategories cfg).contains name) ∧
    (∀ (cfg : Config) (u : UnitBranch) (name : Str),
        (Part cfg u name).isOk =
          (match cfg.siteInfo.categories.lookup u.parent.parent.Name with
           | none => false
           | some ci => (ci.part.lookup name).isSome)) := by
  refine ⟨?_, ?_, ?_, ?_, ?_⟩
  · intro cfg fs name
    cases he : existsSync fs (mkShowBranch cfg name).Dir <;>
      simp [Show, he, Except.isOk, Except.toBool]
  · intro cfg fs c name g h
    simp only [Group, h]
    cases hex : existsSync fs g.Dir <;>
      simp [Bind.bind, Except.bind, hex, Except.isOk, Except.toBool]
  · intro cfg fs g name u h
    simp only [Unit', h]
    cases hex : existsSync fs u.Dir <;>
      simp [Bind.bind, Except.bind, hex, Except.isOk, Except.toBool]
  · intro cfg s name
    unfold Category mkCategoryBranch
    by_cases hb : ((ValidCategories cfg).contains name : Bool) = false
    · rw [if_pos hb, hb]; rfl
    · rw [if_neg hb]
      have hc : (ValidCategories cfg).contains name = true := by
        cases h2 : (ValidCategories cfg).contains name
        · exact absurd h2 hb
        · rfl
      rw [hc]; rfl
  · intro cfg u name
    cases hl : cfg.siteInfo.categories.lookup u.parent.parent.Name with
    | none => simp [Part, mkPartBranch, hl, Except.isOk, Except.toBool]
    | some ci =>
      cases hp : ci.part.lookup name <;>
        simp [Part, mkPartBranch, hl, hp, Except.isOk, Except.toBool]

/-- Witness for C7: `Show`, `Group` and `Unit` Gets succeed on the concrete
filesystem that holds their directories. -/
theorem c7_witness :
    (Show egCfg egFS7 (("sh01").data)).isOk = true ∧
    (Group egCfg egFS7 egCtg (("g1").data)).isOk = true ∧
    (Unit' egCfg egFS7 egGrp (("u1").data)).isOk = true := by
  refine ⟨?_, ?_, ?_⟩
  · rw [c7_get_amended.1 egCfg egFS7 (("sh01").data)]; decide
  · rw [c7_get_amended.2.1 egCfg egFS7 egCtg (("g1").data) egGrp rfl]; decide
  · rw [c7_get_amended.2.2.1 egCfg egFS7 egGrp (("u1").data) egUnit rfl]; decide

theorem scanFile_encoded (pb : PartBranch) (pg : Elo.Program)
    (pre ext dir task ver : Str) (taskMap : List (Str × TaskBranch))
    (hv : versionOK ver = true) (hu : '_' ∉ ver) :
    scanFile pb pg pre ext dir taskMap ⟨(pre ++ (task ++ '_' :: ver)) ++ ext, true⟩ =
      addVersion pb pg dir taskMap task ver := by
  have hef : jsEndsWith ((pre ++ (task ++ '_' :: ver)) ++ ext) ext = true :=
    jsEndsWith_append _ _
  have htk : ((pre ++ (task ++ '_' :: ver)) ++ ext).take
      (((pre ++ (task ++ '_' :: ver)) ++ ext).length - ext.length) =
      pre ++ (task ++ '_' :: ver) := take_sub_append _ _
  have hsw : jsStartsWith (pre ++ (task ++ '_' :: ver)) pre = true :=
    jsStartsWith_append _ _
  have hdr : (pre ++ (task ++ '_' :: ver)).drop pre.length = task ++ '_' :: ver :=
    List.drop_left _ _
  have hws : splitChar '_' (task ++ '_' :: ver) = splitChar '_' task ++ [ver] := by
    rw [splitChar_append, splitChar_no_sep hu]
  have hlen : ¬ ((splitChar '_' task ++ [ver]).length = 1) := by
    intro hcontra
    rw [List.length_append] at hcontra
    have hpos : 0 < (splitChar '_' task).length :=
      List.length_pos.mpr (splitChar_ne_nil '_' task)
    have hone : ([ver] : List Str).length = 1 := rfl
    rw [hone] at hcontra
    omega
  have hlast : ((splitChar '_' task ++ [ver]).getLast?).getD [] = ver := by
    rw [List.getLast?_concat]; rfl
  have hdrop : (splitChar '_' task ++ [ver]).dropLast = splitChar '_' task :=
    List.dropLast_concat
  have hjoin : joinChar '_' (splitChar '_' task) = task := joinChar_splitChar _ _
  simp only [scanFile, hef, htk, hsw, hdr, hws, hlen, hlast, hdrop, hjoin, hv]
  simp

/-- Claim C3: encoding a scene file name from
(show, group, unit, part, task, version) plus an extension and running the
discovery parse over a directory listing containing exactly that file
recovers exactly that task with exactly that version — also when the task
name contains underscores, since only the final underscore token is taken
as the version.  (The version token must pass the discovery filter and must
itself contain no underscore, as a version by construction does.) -/
theorem c3_roundtrip (pb : PartBranch) (pg : Elo.Program)
    (showN grpN unitN partN task ver ext dir : Str)
    (hv : versionOK ver = true) (hu : '_' ∉ ver) :
    (scanTasks pb pg (scanPre showN grpN unitN partN) ext dir
        [⟨sceneFileName showN grpN unitN partN task ver ext, true⟩]).map
      (fun t => (t.Name, t.Versions)) = [(task, [ver])] := by
  have hname : sceneFileName showN grpN unitN partN task ver ext =
      (scanPre showN grpN unitN partN ++ (task ++ '_' :: ver)) ++ ext := by
    simp [sceneFileName, scanPre]
  unfold scanTasks
  simp only [List.foldl_cons, List.foldl_nil, hname,
    scanFile_encoded pb pg (scanPre showN grpN unitN partN) ext dir task ver [] hv hu]
  simp [addVersion, sortBy, orderedInsert]

/-- Witness for C3: the spec's underscore example — the file
`sh01_g1_u1_comp_layout_fix_v001.ext` decodes to task `layout_fix` with
version `v001`. -/
theorem c3_witness :
    (scanTasks egPart egNuke
        (scanPre (("sh01").data) (("g1").data) (("u1").data) (("comp").data))
        ((".ext").data) egTaskDir
        [⟨sceneFileName (("sh01").data) (("g1").data) (("u1").data) (("comp").data)
            (("layout_fix").data) (("v001").data) ((".ext").data), true⟩]).map
      (fun t => (t.Name, t.Versions)) = [((("layout_fix").data), [("v001").data])] :=
  c3_roundtrip egPart egNuke (("sh01").data) (("g1").data) (("u1").data)
    (("comp").data) (("layout_fix").data) (("v001").data) ((".ext").data)
    egTaskDir rfl (by decide)

/-- Claim C9: discovery output is deterministic and ordered — every
discovered task's version list is lexicographically ascending, the tasks
are sorted by name ascending; concretely, versions listed on disk as
`v010, v002, v001` come back as `[v001, v002, v010]`, and the order is
lexicographic (`v100` sorts before `v20`). -/
theorem c9_ordering :
    (∀ (cfg : Config) (fs : FS) (pb : PartBranch) (prog : Str)
        (ts : List TaskBranch),
        Tasks cfg fs pb prog = .ok ts →
          (∀ t ∈ ts, List.Pairwise (fun a b => lexLe a b = true) t.Versions) ∧
          List.Pairwise (fun a b => lexLe a b = true) (ts.map TaskBranch.Name)) ∧
    (Tasks egCfg egFS9 egPart (("nuke").data)).map
        (fun l => l.map (fun t => (t.Name, t.Versions))) =
      .ok [((("main").data), [("v001").data, ("v002").data, ("v010").data])] ∧
    lexLe (("v100").data) (("v20").data) = true := by
  refine ⟨?_, rfl, rfl⟩
  intro cfg fs pb prog ts h
  cases hpa : ProgramAt pb prog with
  | error e =>
    unfold Tasks at h
    rw [hpa] at h
    simp at h
  | ok progDir =>
    have heq : Tasks cfg fs pb prog =
        (if (existsSync fs (pathJoin pb.Dir progDir) : Bool) = false then
          Except.ok []
        else
          match cfg.siteInfo.programs.lookup prog with
          | none => Except.error (("program not defined: ").data ++ prog)
          | some pg =>
            Except.ok (scanTasks pb pg
              (scanPre pb.parent.parent.parent.parent.Name pb.parent.parent.Name
                pb.parent.Name pb.Name) pg.Ext (pathJoin pb.Dir progDir)
              (readdirEnts fs (pathJoin pb.Dir progDir)))) := by
      unfold Tasks
      rw [hpa]
    rw [heq] at h
    by_cases hex : (existsSync fs (pathJoin pb.Dir progDir) : Bool) = false
    · rw [if_pos hex] at h
      simp only [Except.ok.injEq] at h
      subst h
      exact ⟨by simp, by simp⟩
    · rw [if_neg hex] at h
      cases hlp : cfg.siteInfo.programs.lookup prog with
      | none => rw [hlp] at h; simp at h
      | some pg =>
        rw [hlp] at h
        simp only [Except.ok.injEq] at h
        subst h
        constructor
        · intro t ht
          simp only [scanTasks] at ht
          have ht' := mem_sortBy.mp ht
          obtain ⟨e, he, rfl⟩ := List.mem_map.mp ht'
          exact pairwise_sortBy lexLe_trans lexLe_total e.2.Versions
        · simp only [scanTasks]
          rw [List.pairwise_map]
          exact pairwise_sortBy
            (fun (a b c : TaskBranch) hab hbc =>
              lexLe_trans a.Name b.Name c.Name hab hbc)
            (fun (a b : TaskBranch) => lexLe_total a.Name b.Name) _

/-- Witness for C9: the sortedness statement applied to the concrete
discovery run over `egFS9`: the returned task names are sorted. -/
theorem c9_witness :
    List.Pairwise (fun a b => lexLe a b = true)
      (((Tasks egCfg egFS9 egPart (("nuke").data)).toOption.getD []).map
        TaskBranch.Name) :=
  (c9_ordering.1 egCfg egFS9 egPart (("nuke").data)
    ((Tasks egCfg egFS9 egPart (("nuke").data)).toOption.getD []) rfl).2

end Elo
